import Mathlib

/-!
Shallow embedding of the AI4HR_Map layout precomputation tool
(`precompute_layout.js` and its variant) together with theorems settling
the specification claims about it.

Modelling conventions:
* JavaScript numbers reachable in the size computation are modelled by
  `JsVal`: an exact fraction (`Frac`, an unreduced integer pair, read off
  through `Frac.toRat`) together with the special values `nan`, `posInf`,
  `negInf`.  All quantities feeding the size formula are small integers,
  which IEEE-754 doubles represent exactly; the rounding of the one
  division involved is monotone and stays inside `[0, 1]`, so the exact
  model agrees with double arithmetic on every NaN-ness, bound and order
  property stated below.  Every `Frac` built by the program has a positive
  denominator (integer constants have denominator 1, and the sole division
  is guarded by the zero test on its divisor), which the sign tests in the
  operations assume.
* The d3-force simulation tick (library code, not part of this
  repository) is modelled as an arbitrary pure state-transition function
  `tickF : SimState → SimState`; the initial placement is the explicit
  initial state `s0`.
* `d3.forceLink(...).id(d => d.id)` initialization is modelled after the
  library's documented behaviour: each link's string endpoint is replaced
  by a reference to the resolved node record (here: its index in the
  node array), the link is assigned its positional `index`, and a
  reference to a missing id raises the error `"node not found: <id>"`.
* File I/O failures (missing input file, unparsable JSON) are modelled by
  the `none` input; any raised error aborts the program before the single
  final write, which the `Except` result captures: output exists exactly
  when the run returns `.ok`.
-/

/-- An exact fraction of integers, kept unreduced.  Its value is
`Frac.toRat`; every fraction the program builds has a positive
denominator. -/
structure Frac where
  n : ℤ
  d : ℤ
deriving DecidableEq

/-- The fraction denoting an integer constant. -/
def Frac.ofInt (z : ℤ) : Frac := ⟨z, 1⟩

/-- The fraction denoting a natural number (a degree count). -/
def Frac.ofNat (m : ℕ) : Frac := ⟨(m : ℤ), 1⟩

/-- Exact fraction addition. -/
def Frac.add (a b : Frac) : Frac := ⟨a.n * b.d + b.n * a.d, a.d * b.d⟩

/-- Exact fraction subtraction. -/
def Frac.sub (a b : Frac) : Frac := ⟨a.n * b.d - b.n * a.d, a.d * b.d⟩

/-- Exact fraction multiplication. -/
def Frac.mul (a b : Frac) : Frac := ⟨a.n * b.n, a.d * b.d⟩

/-- Exact fraction division (the caller guards against a zero divisor). -/
def Frac.div (a b : Frac) : Frac := ⟨a.n * b.d, a.d * b.n⟩

/-- The rational value of a fraction. -/
def Frac.toRat (a : Frac) : ℚ := (a.n : ℚ) / (a.d : ℚ)

/-- A JavaScript number restricted to the values reachable in this program:
an exact fraction, or one of the special values NaN, +Infinity, -Infinity. -/
inductive JsVal where
  | num : Frac → JsVal
  | nan : JsVal
  | posInf : JsVal
  | negInf : JsVal
deriving DecidableEq

/-- JavaScript `+` on `JsVal` (IEEE-754 special-value rules; signed zeros
are collapsed, which is observationally irrelevant here). -/
def JsVal.add : JsVal → JsVal → JsVal
  | nan, _ => nan
  | _, nan => nan
  | num a, num b => num (a.add b)
  | posInf, negInf => nan
  | negInf, posInf => nan
  | posInf, _ => posInf
  | _, posInf => posInf
  | negInf, _ => negInf
  | _, negInf => negInf

/-- JavaScript `-` on `JsVal`. -/
def JsVal.sub : JsVal → JsVal → JsVal
  | nan, _ => nan
  | _, nan => nan
  | num a, num b => num (a.sub b)
  | posInf, posInf => nan
  | negInf, negInf => nan
  | posInf, _ => posInf
  | negInf, _ => negInf
  | num _, posInf => negInf
  | num _, negInf => posInf

/-- JavaScript `*` on `JsVal`.  The sign tests on a `num` operand read the
numerator, which gives the value's sign because reachable denominators
are positive. -/
def JsVal.mul : JsVal → JsVal → JsVal
  | nan, _ => nan
  | _, nan => nan
  | num a, num b => num (a.mul b)
  | posInf, num b => if b.n = 0 then nan else if 0 < b.n then posInf else negInf
  | num a, posInf => if a.n = 0 then nan else if 0 < a.n then posInf else negInf
  | negInf, num b => if b.n = 0 then nan else if 0 < b.n then negInf else posInf
  | num a, negInf => if a.n = 0 then nan else if 0 < a.n then negInf else posInf
  | posInf, posInf => posInf
  | posInf, negInf => negInf
  | negInf, posInf => negInf
  | negInf, negInf => posInf

/-- JavaScript `/` on `JsVal`.  In particular `0 / 0 = NaN`, which is the
case the degenerate size computation hits. -/
def JsVal.div : JsVal → JsVal → JsVal
  | nan, _ => nan
  | _, nan => nan
  | num a, num b =>
      if b.n = 0 then (if a.n = 0 then nan else if 0 < a.n then posInf else negInf)
      else num (a.div b)
  | num _, posInf => num (Frac.ofInt 0)
  | num _, negInf => num (Frac.ofInt 0)
  | posInf, num b => if 0 ≤ b.n then posInf else negInf
  | negInf, num b => if 0 ≤ b.n then negInf else posInf
  | posInf, posInf => nan
  | posInf, negInf => nan
  | negInf, posInf => nan
  | negInf, negInf => nan

/-- JavaScript `<=` on `JsVal`: any comparison involving NaN is false; two
numbers compare by cross multiplication (valid for positive
denominators). -/
def JsVal.jsLe : JsVal → JsVal → Bool
  | nan, _ => false
  | _, nan => false
  | num a, num b => decide (a.n * b.d ≤ b.n * a.d)
  | negInf, _ => true
  | _, posInf => true
  | posInf, _ => false
  | num _, negInf => false

/-- An input node record of `vault_data.json`:
`{id, title, tags, content}`. -/
structure GNode where
  id : String
  title : String
  tags : List String
  content : String
deriving DecidableEq

/-- An input link record of `vault_data.json`:
`{source, target, type?}` with string endpoints. -/
structure GLink where
  source : String
  target : String
  type : Option String
deriving DecidableEq

/-- The parsed input file: `{nodes, links}`. -/
structure GraphData where
  nodes : List GNode
  links : List GLink
deriving DecidableEq

/-- The ids collected into the `topicNodeIds` set:
`data.nodes.filter(node => node.tags.includes("topic")).map(node => node.id)`. -/
def topicNodeIds (nodes : List GNode) : List String :=
  (nodes.filter (fun n => n.tags.contains "topic")).map (fun n => n.id)

/-- The per-link body of the classification pass:
`if (topicNodeIds.has(link.source) || topicNodeIds.has(link.target)) link.type = "topic_link"`. -/
def classifyLink (tids : List String) (l : GLink) : GLink :=
  if tids.contains l.source || tids.contains l.target then
    { l with type := some "topic_link" }
  else l

/-- The whole classification pass over `data.links`. -/
def classifyLinks (nodes : List GNode) (links : List GLink) : List GLink :=
  links.map (classifyLink (topicNodeIds nodes))

/-- One `nodeDegrees[key] = (nodeDegrees[key] || 0) + 1` update, on the
degree table viewed as a total function (every absent key reads as 0,
matching the zero-initialization plus the `|| 0` default). -/
def bumpDegree (f : String → ℕ) (s : String) : String → ℕ :=
  fun t => if t = s then f s + 1 else f t

/-- The degree-counting pass: for each link, increment the counters of its
source and of its target. -/
def nodeDegrees (links : List GLink) : String → ℕ :=
  links.foldl (fun f l => bumpDegree (bumpDegree f l.source) l.target) (fun _ => 0)

/-- The keys of the `nodeDegrees` object: every node id is seeded first,
and each link endpoint also becomes a key when incremented (so a dangling
endpoint adds a phantom key).  Duplicates are harmless because only the
minimum and maximum of the values are consumed. -/
def degreeKeys (nodes : List GNode) (links : List GLink) : List String :=
  nodes.map (fun n => n.id) ++ links.flatMap (fun l => [l.source, l.target])

/-- The value list `Object.values(nodeDegrees)`. -/
def degreeValues (nodes : List GNode) (links : List GLink) : List ℕ :=
  (degreeKeys nodes links).map (nodeDegrees links)

/-- The natural number `Math.max(...Object.values(nodeDegrees))` computes
when the value list is nonempty (junk value 0 on the empty list, where the
JavaScript result would be -Infinity and no node exists to consume it). -/
def maxDegreeNat (nodes : List GNode) (links : List GLink) : ℕ :=
  match degreeValues nodes links with
  | [] => 0
  | v :: vs => vs.foldl max v

/-- The natural number `Math.min(...Object.values(nodeDegrees))` computes
when the value list is nonempty. -/
def minDegreeNat (nodes : List GNode) (links : List GLink) : ℕ :=
  match degreeValues nodes links with
  | [] => 0
  | v :: vs => vs.foldl min v

/-- The value `Math.max(...Object.values(nodeDegrees))` as a JavaScript
number (`-Infinity` on an empty spread). -/
def maxDegreeVal (nodes : List GNode) (links : List GLink) : JsVal :=
  match degreeValues nodes links with
  | [] => JsVal.negInf
  | v :: vs => JsVal.num (Frac.ofNat (vs.foldl max v))

/-- The value `Math.min(...Object.values(nodeDegrees))` as a JavaScript
number (`+Infinity` on an empty spread). -/
def minDegreeVal (nodes : List GNode) (links : List GLink) : JsVal :=
  match degreeValues nodes links with
  | [] => JsVal.posInf
  | v :: vs => JsVal.num (Frac.ofNat (vs.foldl min v))

/-- The size assignment
`node.size = minSize + (maxSize - minSize) * ((degree - minDegree) / (maxDegree - minDegree))`,
performed in JavaScript arithmetic (`minSize`, `maxSize` are the integer
configuration constants: 16/32 in the dense profile, 8/16 in the sparse
one). -/
def nodeSize (minSize maxSize : ℤ) (nodes : List GNode) (links : List GLink)
    (nid : String) : JsVal :=
  JsVal.add (JsVal.num (Frac.ofInt minSize))
    (JsVal.mul (JsVal.sub (JsVal.num (Frac.ofInt maxSize)) (JsVal.num (Frac.ofInt minSize)))
      (JsVal.div
        (JsVal.sub (JsVal.num (Frac.ofNat (nodeDegrees links nid))) (minDegreeVal nodes links))
        (JsVal.sub (maxDegreeVal nodes links) (minDegreeVal nodes links))))

/-- An in-memory node record after the size assignment: the input fields
plus the mutated-in `size`. -/
structure SNode where
  id : String
  title : String
  tags : List String
  content : String
  size : JsVal
deriving DecidableEq

/-- The size-assignment pass over `data.nodes`. -/
def mkSimNodes (minSize maxSize : ℤ) (nodes : List GNode) (links : List GLink) :
    List SNode :=
  nodes.map (fun n =>
    ⟨n.id, n.title, n.tags, n.content, nodeSize minSize maxSize nodes links n.id⟩)

/-- A link endpoint as stored in the mutable link record: either the input
string id, or (after `forceLink` initialization) a reference to a node
record, modelled as its index in the shared node array. -/
inductive Endpoint where
  | str : String → Endpoint
  | ref : ℕ → Endpoint
deriving DecidableEq

/-- A link record after `forceLink` initialization: endpoints replaced by
node references and the positional `index` field assigned. -/
structure RLink where
  source : Endpoint
  target : Endpoint
  type : Option String
  index : ℕ
deriving DecidableEq

/-- The id-to-node map `new Map(nodes.map(d => [d.id, d]))` used by
`forceLink`: lookup by id, a later node with a duplicate id shadowing an
earlier one.  Returns the index of the found node record. -/
def lookupNode : List SNode → String → Option ℕ
  | [], _ => none
  | n :: ns, s =>
      match lookupNode ns s with
      | some j => some (j + 1)
      | none => if n.id = s then some 0 else none

/-- The `forceLink` initialization over the link array starting at position
`i`: each link gets `index` assigned and its endpoints resolved in order;
a missing id raises `"node not found: <id>"`, aborting the program.
Modelled after the documented behaviour of `d3.forceLink().id(d => d.id)`,
whose source is not part of this repository. -/
def resolveLinksFrom (nodes : List SNode) : ℕ → List GLink → Except String (List RLink)
  | _, [] => .ok []
  | i, l :: ls =>
      match lookupNode nodes l.source with
      | none => .error ("node not found: " ++ l.source)
      | some js =>
          match lookupNode nodes l.target with
          | none => .error ("node not found: " ++ l.target)
          | some jt =>
              match resolveLinksFrom nodes (i + 1) ls with
              | .error e => .error e
              | .ok rs => .ok ({ source := .ref js, target := .ref jt,
                                 type := l.type, index := i } :: rs)

/-- The `forceLink` initialization over the whole link array. -/
def resolveLinks (nodes : List SNode) (links : List GLink) :
    Except String (List RLink) :=
  resolveLinksFrom nodes 0 links

/-- The mutable simulation state: the decaying temperature `alpha` and the
position and velocity of the node at each index.  Modelled from the spec:
the d3 tick body (force application and integration) is library code not
in this repository, so the tick is kept as an arbitrary pure function of
this state. -/
structure SimState where
  alpha : ℚ
  posOf : ℕ → ℚ × ℚ
  velOf : ℕ → ℚ × ℚ

/-- An output node record: exactly the fields
`{id, title, tags, content, x, y, size}` picked by the output projection. -/
structure ONode where
  id : String
  title : String
  tags : List String
  content : String
  x : ℚ
  y : ℚ
  size : JsVal
deriving DecidableEq

/-- The serialized output record `{nodes, links}`.  The link list is the
shared link array as left by `forceLink` initialization. -/
structure OutputData where
  nodes : List ONode
  links : List RLink
deriving DecidableEq

/-- The output node projection
`data.nodes.map(node => ({id, title, tags, content, x: node.x, y: node.y, size: node.size}))`
where node `i` reads its position from the final simulation state. -/
def projectNodes (pos : ℕ → ℚ × ℚ) : ℕ → List SNode → List ONode
  | _, [] => []
  | i, n :: ns =>
      ⟨n.id, n.title, n.tags, n.content, (pos i).1, (pos i).2, n.size⟩ ::
        projectNodes pos (i + 1) ns

/-- The whole program run, from the parsed input (or `none` when the input
file is missing or unparsable) to the written output file.  `tickF` is the
d3 tick (abstract pure state transition), `ticks` the configured
`SIMULATION_TICKS`, `s0` the initial simulation state (initial placement
and initial alpha).  Any raised error aborts the run before the single
final write, so an output file exists exactly when the result is `.ok`. -/
def runProgram (minSize maxSize : ℤ) (tickF : SimState → SimState) (ticks : ℕ)
    (s0 : SimState) (input : Option GraphData) : Except String OutputData :=
  match input with
  | none => .error "failed to read or parse vault_data.json"
  | some data =>
      match resolveLinks
          (mkSimNodes minSize maxSize data.nodes (classifyLinks data.nodes data.links))
          (classifyLinks data.nodes data.links) with
      | .error e => .error e
      | .ok rlinks =>
          .ok { nodes := projectNodes (Nat.iterate tickF ticks s0).posOf 0
                  (mkSimNodes minSize maxSize data.nodes
                    (classifyLinks data.nodes data.links)),
                links := rlinks }

/-- Applying the two increments of one link to the degree table adds one
at the source key and one at the target key (two at a self-loop key). -/
theorem bumpDegree_two_apply (f : String → ℕ) (a b s : String) :
    bumpDegree (bumpDegree f a) b s =
      f s + (if s = a then 1 else 0) + (if s = b then 1 else 0) := by
  simp only [bumpDegree]
  by_cases h1 : s = a <;> by_cases h2 : s = b <;> by_cases h3 : b = a <;>
    simp_all

/-- Folding the per-link double increment over any starting table adds, at
every key, one for each link having it as an endpoint plus one more for
each self-loop at it. -/
theorem nodeDegrees_foldl_spec (links : List GLink) (f : String → ℕ) (s : String) :
    (links.foldl (fun g l => bumpDegree (bumpDegree g l.source) l.target) f) s =
      f s + (links.countP (fun l => s == l.source || s == l.target) +
             links.countP (fun l => s == l.source && s == l.target)) := by
  induction links generalizing f with
  | nil => simp
  | cons l ls ih =>
      simp only [List.foldl_cons, List.countP_cons, ih, bumpDegree_two_apply]
      by_cases h1 : s = l.source <;> by_cases h2 : s = l.target <;>
        simp [h1, h2] <;> omega

/-- C5: each id's computed degree equals the number of links in which it
appears as source or target, plus one more for each self-loop at it (so a
self-loop counts twice). -/
theorem degree_counts_endpoint_occurrences (links : List GLink) (s : String) :
    nodeDegrees links s =
      links.countP (fun l => s == l.source || s == l.target) +
      links.countP (fun l => s == l.source && s == l.target) := by
  have h := nodeDegrees_foldl_spec links (fun _ => 0) s
  simpa [nodeDegrees] using h

/-- A link touches a topic node: some node in the list carries the tag
`"topic"` and its id is the link's source or target. -/
def hasTopicEndpointP (nodes : List GNode) (l : GLink) : Prop :=
  ∃ n ∈ nodes, "topic" ∈ n.tags ∧ (n.id = l.source ∨ n.id = l.target)

instance (nodes : List GNode) (l : GLink) : Decidable (hasTopicEndpointP nodes l) :=
  List.decidableBEx _ nodes

/-- Membership in the collected topic-id set coincides with the existence
of a topic-tagged node carrying that id. -/
theorem topicNodeIds_contains_iff (nodes : List GNode) (s : String) :
    ((topicNodeIds nodes).contains s = true) ↔
      ∃ n ∈ nodes, "topic" ∈ n.tags ∧ n.id = s := by
  simp [topicNodeIds, List.mem_filter]
  constructor
  · rintro ⟨n, ⟨hn, ht⟩, hid⟩
    exact ⟨n, hn, by simpa using ht, hid⟩
  · rintro ⟨n, hn, ht, hid⟩
    exact ⟨n, ⟨hn, by simpa using ht⟩, hid⟩

/-- The classification test of one link is exactly the existence of a
topic endpoint. -/
theorem classify_test_iff (nodes : List GNode) (l : GLink) :
    (((topicNodeIds nodes).contains l.source ||
      (topicNodeIds nodes).contains l.target) = true) ↔
      hasTopicEndpointP nodes l := by
  rw [Bool.or_eq_true, topicNodeIds_contains_iff, topicNodeIds_contains_iff,
    hasTopicEndpointP]
  constructor
  · rintro (⟨n, hn, ht, hid⟩ | ⟨n, hn, ht, hid⟩)
    · exact ⟨n, hn, ht, Or.inl hid⟩
    · exact ⟨n, hn, ht, Or.inr hid⟩
  · rintro ⟨n, hn, ht, hid | hid⟩
    · exact Or.inl ⟨n, hn, ht, hid⟩
    · exact Or.inr ⟨n, hn, ht, hid⟩

/-- C3 (amended): the classification pass maps each link through
`classifyLink`; a link with a topic endpoint comes out typed
`"topic_link"`, a link without one keeps its input type unchanged, and
hence — for links not already typed `"topic_link"` on input — the output
type is `"topic_link"` iff the link has a topic endpoint.  Endpoints are
never altered. -/
theorem classification_characterization (nodes : List GNode) (links : List GLink) :
    ∀ l ∈ links,
      classifyLink (topicNodeIds nodes) l ∈ classifyLinks nodes links ∧
      (classifyLink (topicNodeIds nodes) l).source = l.source ∧
      (classifyLink (topicNodeIds nodes) l).target = l.target ∧
      (hasTopicEndpointP nodes l →
        (classifyLink (topicNodeIds nodes) l).type = some "topic_link") ∧
      (¬ hasTopicEndpointP nodes l →
        (classifyLink (topicNodeIds nodes) l).type = l.type) ∧
      (l.type ≠ some "topic_link" →
        ((classifyLink (topicNodeIds nodes) l).type = some "topic_link" ↔
          hasTopicEndpointP nodes l)) := by
  intro l hl
  refine ⟨List.mem_map_of_mem _ hl, ?_⟩
  unfold classifyLink
  by_cases h : ((topicNodeIds nodes).contains l.source ||
      (topicNodeIds nodes).contains l.target) = true
  · have ht := (classify_test_iff nodes l).mp h
    rw [if_pos h]
    exact ⟨rfl, rfl, fun _ => rfl, fun hc => absurd ht hc, fun _ => ⟨fun _ => ht, fun _ => rfl⟩⟩
  · have ht := fun hh => h ((classify_test_iff nodes l).mpr hh)
    rw [if_neg h]
    exact ⟨rfl, rfl, fun hc => absurd hc ht, fun _ => rfl,
      fun hne => ⟨fun he => absurd he hne, fun hh => absurd hh ht⟩⟩

/-- The two-node, one-link input whose link arrives already typed
`"topic_link"` although neither endpoint is a topic node. -/
def pretypedNodes : List GNode := [⟨"A", "A", [], ""⟩, ⟨"B", "B", [], ""⟩]

/-- The pre-typed link list of that input. -/
def pretypedLinks : List GLink := [⟨"A", "B", some "topic_link"⟩]

/-- C3 counterexample: after classification the only link still carries
type `"topic_link"`, yet neither of its endpoints is a topic node — so
"carries `topic_link` only if some endpoint is a topic node" is false as
stated. -/
theorem classification_pretyped_cex :
    (classifyLinks pretypedNodes pretypedLinks).map (fun l => l.type) =
      [some "topic_link"] ∧
    ¬ hasTopicEndpointP pretypedNodes ⟨"A", "B", some "topic_link"⟩ := by
  constructor
  · decide
  · decide

/-- A topic-classification witness input: `A` is a topic node, the link
`A–B` has no input type. -/
def topicWitNodes : List GNode := [⟨"A", "A", ["topic"], ""⟩, ⟨"B", "B", [], ""⟩]

/-- The link list of the topic-classification witness input. -/
def topicWitLinks : List GLink := [⟨"A", "B", none⟩]

/-- Witness for the amended C3 theorem at a concrete input. -/
theorem classification_characterization_witness :
    (classifyLink (topicNodeIds topicWitNodes) ⟨"A", "B", none⟩).type =
      some "topic_link" :=
  ((classification_characterization topicWitNodes topicWitLinks
    ⟨"A", "B", none⟩ (by decide)).2.2.2.1) (by decide)

/-- The single-node, zero-link input on which the size computation
degenerates: every node (there is one) has the same degree 0. -/
def uniformNodes : List GNode := [⟨"A", "Node A", [], "body"⟩]

/-- The link list of the degenerate input: empty. -/
def uniformLinks : List GLink := []

/-- C1: evaluating the size assignment of `precompute_layout.js` (dense
profile, `minSize = 16`, `maxSize = 32`) on a graph in which all nodes
have the same degree yields `16 + 16 * ((0 - 0) / (0 - 0)) = NaN`, not
`size = minSize` as the design requires: the degenerate ratio is `0 / 0`
and the NaN propagates into the stored `size`. -/
theorem uniform_degree_size_nan :
    nodeSize 16 32 uniformNodes uniformLinks "A" = JsVal.nan := by decide

/-- The seed of a `max` fold never exceeds the fold's result. -/
theorem foldl_max_init_le (l : List ℕ) (v : ℕ) : v ≤ l.foldl max v := by
  induction l generalizing v with
  | nil => simp
  | cons x xs ih => exact le_trans (le_max_left v x) (ih (max v x))

/-- Every member of a list is at most the `max` fold of the list. -/
theorem mem_le_foldl_max (l : List ℕ) (v a : ℕ) (ha : a ∈ l) :
    a ≤ l.foldl max v := by
  induction l generalizing v with
  | nil => cases ha
  | cons x xs ih =>
      rcases List.mem_cons.mp ha with h | h
      · subst h
        exact le_trans (le_max_right v a) (foldl_max_init_le xs (max v a))
      · exact ih (max v x) h

/-- The `min` fold's result never exceeds its seed. -/
theorem foldl_min_le_init (l : List ℕ) (v : ℕ) : l.foldl min v ≤ v := by
  induction l generalizing v with
  | nil => simp
  | cons x xs ih => exact le_trans (ih (min v x)) (min_le_left v x)

/-- The `min` fold of a list is at most every member. -/
theorem foldl_min_le_mem (l : List ℕ) (v a : ℕ) (ha : a ∈ l) :
    l.foldl min v ≤ a := by
  induction l generalizing v with
  | nil => cases ha
  | cons x xs ih =>
      rcases List.mem_cons.mp ha with h | h
      · subst h
        exact le_trans (foldl_min_le_init xs (min v a)) (min_le_right v a)
      · exact ih (min v x) h

/-- A node's degree appears among `Object.values(nodeDegrees)`. -/
theorem degree_mem_degreeValues (nodes : List GNode) (links : List GLink)
    (n : GNode) (hn : n ∈ nodes) :
    nodeDegrees links n.id ∈ degreeValues nodes links := by
  have hkey : n.id ∈ degreeKeys nodes links :=
    List.mem_append_left _ (List.mem_map_of_mem _ hn)
  exact List.mem_map_of_mem _ hkey

/-- The degree-value list is nonempty as soon as some node exists. -/
theorem degreeValues_ne_nil (nodes : List GNode) (links : List GLink)
    (n : GNode) (hn : n ∈ nodes) : degreeValues nodes links ≠ [] :=
  List.ne_nil_of_mem (degree_mem_degreeValues nodes links n hn)

/-- The degree of every node lies below the computed maximum degree. -/
theorem degree_le_maxDegreeNat (nodes : List GNode) (links : List GLink)
    (n : GNode) (hn : n ∈ nodes) :
    nodeDegrees links n.id ≤ maxDegreeNat nodes links := by
  have hmem := degree_mem_degreeValues nodes links n hn
  unfold maxDegreeNat
  cases hval : degreeValues nodes links with
  | nil => rw [hval] at hmem; cases hmem
  | cons v vs =>
      rw [hval] at hmem
      rcases List.mem_cons.mp hmem with h | h
      · rw [h]; exact foldl_max_init_le vs v
      · exact mem_le_foldl_max vs v _ h

/-- The degree of every node lies above the computed minimum degree. -/
theorem minDegreeNat_le_degree (nodes : List GNode) (links : List GLink)
    (n : GNode) (hn : n ∈ nodes) :
    minDegreeNat nodes links ≤ nodeDegrees links n.id := by
  have hmem := degree_mem_degreeValues nodes links n hn
  unfold minDegreeNat
  cases hval : degreeValues nodes links with
  | nil => rw [hval] at hmem; cases hmem
  | cons v vs =>
      rw [hval] at hmem
      rcases List.mem_cons.mp hmem with h | h
      · rw [h]; exact foldl_min_le_init vs v
      · exact foldl_min_le_mem vs v _ h

/-- In the non-degenerate case (`minDegree < maxDegree`) the size
assignment produces the exact fraction
`(minSize * (maxDeg - minDeg) + (maxSize - minSize) * (deg - minDeg)) / (maxDeg - minDeg)`. -/
theorem nodeSize_eval (minS maxS : ℤ) (nodes : List GNode) (links : List GLink)
    (nid : String) (hne : degreeValues nodes links ≠ [])
    (hdeg : minDegreeNat nodes links < maxDegreeNat nodes links) :
    nodeSize minS maxS nodes links nid =
      JsVal.num
        ⟨minS * ((maxDegreeNat nodes links : ℤ) - (minDegreeNat nodes links : ℤ)) +
            (maxS - minS) * ((nodeDegrees links nid : ℤ) - (minDegreeNat nodes links : ℤ)),
          (maxDegreeNat nodes links : ℤ) - (minDegreeNat nodes links : ℤ)⟩ := by
  cases hval : degreeValues nodes links with
  | nil => exact absurd hval hne
  | cons v vs =>
      have hM : maxDegreeNat nodes links = vs.foldl max v := by
        unfold maxDegreeNat; rw [hval]
      have hm : minDegreeNat nodes links = vs.foldl min v := by
        unfold minDegreeNat; rw [hval]
      have hMv : maxDegreeVal nodes links = JsVal.num (Frac.ofNat (vs.foldl max v)) := by
        unfold maxDegreeVal; rw [hval]
      have hmv : minDegreeVal nodes links = JsVal.num (Frac.ofNat (vs.foldl min v)) := by
        unfold minDegreeVal; rw [hval]
      have hne2 : ¬ (((vs.foldl max v : ℕ) : ℤ) - ((vs.foldl min v : ℕ) : ℤ) = 0) := by
        rw [hM, hm] at hdeg; omega
      rw [nodeSize, hMv, hmv, hM, hm]
      simp only [JsVal.sub, Frac.ofInt, Frac.ofNat, Frac.sub, mul_one, one_mul]
      simp only [JsVal.div]
      rw [if_neg hne2]
      simp only [JsVal.mul, JsVal.add, Frac.mul, Frac.add, Frac.div, mul_one, one_mul]

/-- C4 (amended): whenever the degree range is non-degenerate
(`minDegree < maxDegree`) and `minSize ≤ maxSize`, every node's computed
size is an actual number `f` with `minSize ≤ f ≤ maxSize`, and within one
run the size is a non-decreasing function of the degree.  (In the
degenerate case `minDegree = maxDegree` the computed size is NaN and the
bound fails; see the counterexample.) -/
theorem size_bounds_and_monotone (minS maxS : ℤ) (nodes : List GNode)
    (links : List GLink) (hS : minS ≤ maxS)
    (hdeg : minDegreeNat nodes links < maxDegreeNat nodes links) :
    (∀ n ∈ nodes, ∃ f : Frac,
        nodeSize minS maxS nodes links n.id = JsVal.num f ∧
        (minS : ℚ) ≤ f.toRat ∧ f.toRat ≤ (maxS : ℚ)) ∧
    (∀ n1 ∈ nodes, ∀ n2 ∈ nodes,
        nodeDegrees links n1.id ≤ nodeDegrees links n2.id →
        ∀ f1 f2 : Frac,
          nodeSize minS maxS nodes links n1.id = JsVal.num f1 →
          nodeSize minS maxS nodes links n2.id = JsVal.num f2 →
          f1.toRat ≤ f2.toRat) := by
  have hdenZ : (0 : ℤ) < (maxDegreeNat nodes links : ℤ) - (minDegreeNat nodes links : ℤ) := by
    omega
  have hdenQ : (0 : ℚ) <
      (((maxDegreeNat nodes links : ℤ) - (minDegreeNat nodes links : ℤ) : ℤ) : ℚ) := by
    exact_mod_cast hdenZ
  have hSQ : (minS : ℚ) ≤ (maxS : ℚ) := by exact_mod_cast hS
  constructor
  · intro n hn
    have hev := nodeSize_eval minS maxS nodes links n.id
      (degreeValues_ne_nil nodes links n hn) hdeg
    refine ⟨_, hev, ?_, ?_⟩
    all_goals
      have hD1 : minDegreeNat nodes links ≤ nodeDegrees links n.id :=
        minDegreeNat_le_degree nodes links n hn
      have hD2 : nodeDegrees links n.id ≤ maxDegreeNat nodes links :=
        degree_le_maxDegreeNat nodes links n hn
      have hD1Q : ((minDegreeNat nodes links : ℤ) : ℚ) ≤ ((nodeDegrees links n.id : ℤ) : ℚ) := by
        exact_mod_cast hD1
      have hD2Q : ((nodeDegrees links n.id : ℤ) : ℚ) ≤ ((maxDegreeNat nodes links : ℤ) : ℚ) := by
        exact_mod_cast hD2
    · rw [Frac.toRat, le_div_iff₀ hdenQ]
      push_cast
      push_cast at hD1Q hD2Q
      nlinarith [mul_nonneg (sub_nonneg.mpr hSQ) (sub_nonneg.mpr hD1Q)]
    · rw [Frac.toRat, div_le_iff₀ hdenQ]
      push_cast
      push_cast at hD1Q hD2Q
      nlinarith [mul_le_mul_of_nonneg_left (by linarith :
        ((nodeDegrees links n.id : ℚ)) - ((minDegreeNat nodes links : ℚ)) ≤
          ((maxDegreeNat nodes links : ℚ)) - ((minDegreeNat nodes links : ℚ)))
        (by linarith : (0 : ℚ) ≤ (maxS : ℚ) - (minS : ℚ))]
  · intro n1 h1 n2 h2 hle f1 f2 he1 he2
    have hev1 := nodeSize_eval minS maxS nodes links n1.id
      (degreeValues_ne_nil nodes links n1 h1) hdeg
    have hev2 := nodeSize_eval minS maxS nodes links n2.id
      (degreeValues_ne_nil nodes links n2 h2) hdeg
    rw [he1] at hev1
    rw [he2] at hev2
    injection hev1 with hf1
    injection hev2 with hf2
    subst hf1
    subst hf2
    rw [Frac.toRat, Frac.toRat]
    rw [div_le_div_iff_of_pos_right hdenQ]
    push_cast
    have hleQ : ((nodeDegrees links n1.id : ℚ)) ≤ ((nodeDegrees links n2.id : ℚ)) := by
      exact_mod_cast hle
    nlinarith [mul_le_mul_of_nonneg_left
      (sub_le_sub_right hleQ ((minDegreeNat nodes links : ℚ)))
      (sub_nonneg.mpr hSQ)]

/-- A perfectly regular two-node input: both nodes have degree 1. -/
def regularNodes : List GNode := [⟨"A", "A", [], ""⟩, ⟨"B", "B", [], ""⟩]

/-- The single link of the regular input. -/
def regularLinks : List GLink := [⟨"A", "B", none⟩]

/-- C4 counterexample: on a perfectly regular graph (all degrees equal)
the computed size is NaN, so `minSize ≤ size ≤ maxSize` fails as stated —
the JavaScript comparison `16 <= size` is false and the size is no number
at all. -/
theorem size_bounds_regular_cex :
    nodeSize 16 32 regularNodes regularLinks "A" = JsVal.nan ∧
    JsVal.jsLe (JsVal.num (Frac.ofInt 16))
      (nodeSize 16 32 regularNodes regularLinks "A") = false := by
  constructor
  · decide
  · decide

/-- The three-node path witness input (sparse profile 8/16): degrees are
`A:1, B:2, C:1`. -/
def sizeWitNodes : List GNode :=
  [⟨"A", "A", ["topic"], ""⟩, ⟨"B", "B", [], ""⟩, ⟨"C", "C", [], ""⟩]

/-- The links of the path witness input: `A–B`, `B–C`. -/
def sizeWitLinks : List GLink := [⟨"A", "B", none⟩, ⟨"B", "C", none⟩]

/-- Witness for the amended C4 theorem at a concrete input: the
non-degeneracy hypotheses hold and node `B` receives an in-range numeric
size. -/
theorem size_bounds_and_monotone_witness :
    ((8 : ℤ) ≤ 16 ∧ minDegreeNat sizeWitNodes sizeWitLinks < maxDegreeNat sizeWitNodes sizeWitLinks) ∧
    (∃ f : Frac,
      nodeSize 8 16 sizeWitNodes sizeWitLinks "B" = JsVal.num f ∧
      ((8 : ℤ) : ℚ) ≤ f.toRat ∧ f.toRat ≤ ((16 : ℤ) : ℚ)) :=
  ⟨⟨by decide, by decide⟩,
    (size_bounds_and_monotone 8 16 sizeWitNodes sizeWitLinks (by decide) (by decide)).1
      ⟨"B", "B", [], ""⟩ (by decide)⟩

/-- A successful `forceLink` id lookup returns the index of a node record
carrying the looked-up id. -/
theorem lookupNode_some_spec (nodes : List SNode) (s : String) :
    ∀ j, lookupNode nodes s = some j →
      ∃ hj : j < nodes.length, (nodes.get ⟨j, hj⟩).id = s := by
  induction nodes with
  | nil => intro j h; simp [lookupNode] at h
  | cons n ns ih =>
      intro j h
      rw [lookupNode] at h
      cases hrec : lookupNode ns s with
      | some k =>
          rw [hrec] at h
          injection h with h
          subst h
          obtain ⟨hk, hid⟩ := ih k hrec
          exact ⟨by simpa using Nat.succ_lt_succ hk, hid⟩
      | none =>
          rw [hrec] at h
          by_cases hid : n.id = s
          · rw [if_pos hid] at h
            injection h with h
            subst h
            exact ⟨by simp, hid⟩
          · rw [if_neg hid] at h
            cases h

/-- The `forceLink` id lookup fails exactly when no node carries the id. -/
theorem lookupNode_eq_none_iff (nodes : List SNode) (s : String) :
    lookupNode nodes s = none ↔ ∀ n ∈ nodes, n.id ≠ s := by
  induction nodes with
  | nil => simp [lookupNode]
  | cons n ns ih =>
      rw [lookupNode]
      cases hrec : lookupNode ns s with
      | some k =>
          simp only [List.forall_mem_cons]
          constructor
          · intro h; cases h
          · intro hall
            have h2 := ih.mpr hall.2
            rw [hrec] at h2
            cases h2
      | none =>
          have hall := ih.mp hrec
          simp only [List.forall_mem_cons]
          by_cases hid : n.id = s
          · rw [if_pos hid]
            constructor
            · intro h; cases h
            · intro h; exact absurd hid h.1
          · rw [if_neg hid]
            constructor
            · intro _; exact ⟨hid, hall⟩
            · intro _; rfl

/-- The size-assignment pass keeps every node's id (pointwise). -/
theorem mkSimNodes_get_id (minS maxS : ℤ) (nodes : List GNode) (links : List GLink) :
    ∀ k (hk : k < nodes.length),
      ∃ hk2 : k < (mkSimNodes minS maxS nodes links).length,
        ((mkSimNodes minS maxS nodes links).get ⟨k, hk2⟩).id = (nodes.get ⟨k, hk⟩).id := by
  intro k hk
  refine ⟨by simpa [mkSimNodes] using hk, ?_⟩
  simp [mkSimNodes]

/-- The size-assignment pass carries exactly the input ids. -/
theorem mkSimNodes_map_id (minS maxS : ℤ) (nodes : List GNode) (links : List GLink) :
    (mkSimNodes minS maxS nodes links).map (fun n => n.id) =
      nodes.map (fun n => n.id) := by
  simp [mkSimNodes, List.map_map]

/-- The output projection keeps length. -/
theorem projectNodes_length (pos : ℕ → ℚ × ℚ) :
    ∀ (ns : List SNode) (i : ℕ), (projectNodes pos i ns).length = ns.length := by
  intro ns
  induction ns with
  | nil => intro i; rfl
  | cons n ms ih => intro i; simp [projectNodes, ih]

/-- The output projection copies `id`, `title`, `tags`, `content`
unchanged, in order. -/
theorem projectNodes_map_fields (pos : ℕ → ℚ × ℚ) :
    ∀ (ns : List SNode) (i : ℕ),
      (projectNodes pos i ns).map (fun n => (n.id, n.title, n.tags, n.content)) =
        ns.map (fun n => (n.id, n.title, n.tags, n.content)) := by
  intro ns
  induction ns with
  | nil => intro i; rfl
  | cons n ms ih => intro i; simp [projectNodes, ih]

/-- The output projection keeps every node's id (pointwise). -/
theorem projectNodes_get_id (pos : ℕ → ℚ × ℚ) :
    ∀ (ns : List SNode) (i k : ℕ) (hk : k < ns.length),
      ∃ hk2 : k < (projectNodes pos i ns).length,
        ((projectNodes pos i ns).get ⟨k, hk2⟩).id = (ns.get ⟨k, hk⟩).id := by
  intro ns
  induction ns with
  | nil => intro i k hk; cases hk
  | cons n ms ih =>
      intro i k hk
      refine ⟨by rw [projectNodes_length]; exact hk, ?_⟩
      cases k with
      | zero => rfl
      | succ k' =>
          obtain ⟨hk2, hid⟩ := ih (i + 1) k' (by simpa using Nat.lt_of_succ_lt_succ hk)
          simpa [projectNodes, List.get] using hid

/-- Classification never changes a link's source. -/
theorem classifyLink_source (tids : List String) (l : GLink) :
    (classifyLink tids l).source = l.source := by
  unfold classifyLink; split <;> rfl

/-- Classification never changes a link's target. -/
theorem classifyLink_target (tids : List String) (l : GLink) :
    (classifyLink tids l).target = l.target := by
  unfold classifyLink; split <;> rfl

/-- A successful `forceLink` initialization produces one resolved record
per link, in order: record `k` gets index `i + k`, keeps the link's type,
and its endpoints are the looked-up node indices of the link's source and
target ids. -/
theorem resolveLinksFrom_ok_spec (nodes : List SNode) :
    ∀ (ls : List GLink) (i : ℕ) (rs : List RLink),
      resolveLinksFrom nodes i ls = .ok rs →
      rs.length = ls.length ∧
      ∀ k (hk : k < ls.length), ∃ hk2 : k < rs.length, ∃ js jt,
        lookupNode nodes (ls.get ⟨k, hk⟩).source = some js ∧
        lookupNode nodes (ls.get ⟨k, hk⟩).target = some jt ∧
        rs.get ⟨k, hk2⟩ =
          ⟨.ref js, .ref jt, (ls.get ⟨k, hk⟩).type, i + k⟩ := by
  intro ls
  induction ls with
  | nil =>
      intro i rs h
      rw [resolveLinksFrom] at h
      injection h with h
      subst h
      exact ⟨rfl, fun k hk => absurd hk (Nat.not_lt_zero k)⟩
  | cons l ms ih =>
      intro i rs h
      rw [resolveLinksFrom] at h
      cases hs : lookupNode nodes l.source with
      | none => rw [hs] at h; cases h
      | some js =>
          rw [hs] at h
          cases ht : lookupNode nodes l.target with
          | none => rw [ht] at h; cases h
          | some jt =>
              rw [ht] at h
              cases hrec : resolveLinksFrom nodes (i + 1) ms with
              | error e => rw [hrec] at h; cases h
              | ok rs' =>
                  rw [hrec] at h
                  injection h with h
                  subst h
                  obtain ⟨hlen, hspec⟩ := ih (i + 1) rs' hrec
                  refine ⟨by simp [hlen], ?_⟩
                  intro k hk
                  cases k with
                  | zero =>
                      exact ⟨by simp, js, jt, hs, ht, by simp⟩
                  | succ k' =>
                      obtain ⟨hk2, js', jt', hs', ht', heq⟩ :=
                        hspec k' (Nat.lt_of_succ_lt_succ hk)
                      refine ⟨by simpa using Nat.succ_lt_succ hk2, js', jt', hs', ht', ?_⟩
                      have harith : i + 1 + k' = i + (k' + 1) := by omega
                      simpa [List.get, harith] using heq

/-- If some link's source or target id has no node, `forceLink`
initialization raises an error. -/
theorem resolveLinksFrom_error_of_dangling (nodes : List SNode) (ls : List GLink) :
    ∀ i, (∃ l ∈ ls, lookupNode nodes l.source = none ∨ lookupNode nodes l.target = none) →
      ∃ e, resolveLinksFrom nodes i ls = .error e := by
  induction ls with
  | nil =>
      intro i h
      rcases h with ⟨l, hl, _⟩
      cases hl
  | cons l ms ih =>
      intro i h
      rw [resolveLinksFrom]
      cases hs : lookupNode nodes l.source with
      | none => exact ⟨_, rfl⟩
      | some js =>
          cases ht : lookupNode nodes l.target with
          | none => exact ⟨_, rfl⟩
          | some jt =>
              rcases h with ⟨m, hm, hcase⟩
              rcases List.mem_cons.mp hm with rfl | hm2
              · rcases hcase with hc | hc
                · rw [hs] at hc; cases hc
                · rw [ht] at hc; cases hc
              · obtain ⟨e, he⟩ := ih (i + 1) ⟨m, hm2, hcase⟩
                rw [he]
                exact ⟨e, rfl⟩

/-- Inversion of a successful run: the link resolution succeeded and the
output is the projection of the sized nodes plus the resolved links. -/
theorem runProgram_ok_inv (minS maxS : ℤ) (tickF : SimState → SimState)
    (ticks : ℕ) (s0 : SimState) (d : GraphData) (o : OutputData)
    (h : runProgram minS maxS tickF ticks s0 (some d) = .ok o) :
    ∃ rlinks,
      resolveLinks (mkSimNodes minS maxS d.nodes (classifyLinks d.nodes d.links))
          (classifyLinks d.nodes d.links) = .ok rlinks ∧
      o = ⟨projectNodes (Nat.iterate tickF ticks s0).posOf 0
            (mkSimNodes minS maxS d.nodes (classifyLinks d.nodes d.links)),
          rlinks⟩ := by
  rw [runProgram] at h
  cases hres : resolveLinks
      (mkSimNodes minS maxS d.nodes (classifyLinks d.nodes d.links))
      (classifyLinks d.nodes d.links) with
  | error e => rw [hres] at h; cases h
  | ok rl =>
      rw [hres] at h
      injection h with h
      exact ⟨rl, rfl, h.symm⟩

/-- The output projection carries exactly the input ids, in order. -/
theorem projectNodes_map_id (pos : ℕ → ℚ × ℚ) :
    ∀ (ns : List SNode) (i : ℕ),
      (projectNodes pos i ns).map (fun n => n.id) = ns.map (fun n => n.id) := by
  intro ns
  induction ns with
  | nil => intro i; rfl
  | cons n ms ih => intro i; simp [projectNodes, ih]

/-- The size-assignment pass copies `id`, `title`, `tags`, `content`
unchanged, in order. -/
theorem mkSimNodes_map_fields (minS maxS : ℤ) (nodes : List GNode) (links : List GLink) :
    (mkSimNodes minS maxS nodes links).map (fun n => (n.id, n.title, n.tags, n.content)) =
      nodes.map (fun n => (n.id, n.title, n.tags, n.content)) := by
  simp [mkSimNodes, List.map_map]

/-- C6: every successful run's output node list carries, node for node and
in order, exactly the input's `id`, `title`, `tags` and `content`; by the
shape of the output record each node holds exactly the fields
`{id, title, tags, content, x, y, size}`, so no simulation-internal field
leaks into the node list. -/
theorem output_fields_passthrough (minS maxS : ℤ) (tickF : SimState → SimState)
    (ticks : ℕ) (s0 : SimState) (d : GraphData) (o : OutputData)
    (h : runProgram minS maxS tickF ticks s0 (some d) = .ok o) :
    o.nodes.map (fun n => (n.id, n.title, n.tags, n.content)) =
      d.nodes.map (fun n => (n.id, n.title, n.tags, n.content)) := by
  obtain ⟨rl, hres, ho⟩ := runProgram_ok_inv minS maxS tickF ticks s0 d o h
  rw [ho]
  exact (projectNodes_map_fields _ _ _).trans (mkSimNodes_map_fields _ _ _ _)

/-- C10: a successful run emits exactly one output node per input node in
input order (same id sequence), and one output link per input link in
input order (link `k` carries index `k`). -/
theorem output_preserves_order (minS maxS : ℤ) (tickF : SimState → SimState)
    (ticks : ℕ) (s0 : SimState) (d : GraphData) (o : OutputData)
    (h : runProgram minS maxS tickF ticks s0 (some d) = .ok o) :
    o.nodes.map (fun n => n.id) = d.nodes.map (fun n => n.id) ∧
    o.links.length = d.links.length ∧
    ∀ k (hk : k < o.links.length), (o.links.get ⟨k, hk⟩).index = k := by
  obtain ⟨rl, hres, ho⟩ := runProgram_ok_inv minS maxS tickF ticks s0 d o h
  rw [resolveLinks] at hres
  have hspec := resolveLinksFrom_ok_spec _ (classifyLinks d.nodes d.links) 0 rl hres
  have hlen : rl.length = d.links.length := by
    rw [hspec.1, classifyLinks, List.length_map]
  subst ho
  refine ⟨?_, hlen, ?_⟩
  · exact (projectNodes_map_id _ _ _).trans (mkSimNodes_map_id _ _ _ _)
  · intro k hk
    have hkc : k < (classifyLinks d.nodes d.links).length := by
      rw [classifyLinks, List.length_map]
      rw [← hlen]
      exact hk
    obtain ⟨hk2, js, jt, hjs, hjt, heq⟩ := hspec.2 k hkc
    rw [heq]
    simp

/-- C2 (amended): a successful run's output link list has one record per
input link in order; record `k` carries the classified type of input link
`k`, but its `source` and `target` are no longer the input id strings —
`forceLink` initialization has replaced them by references to the resolved
node records, each of which sits in the output node list and carries the
original endpoint id. -/
theorem output_links_resolved (minS maxS : ℤ) (tickF : SimState → SimState)
    (ticks : ℕ) (s0 : SimState) (d : GraphData) (o : OutputData)
    (h : runProgram minS maxS tickF ticks s0 (some d) = .ok o) :
    o.links.length = d.links.length ∧
    ∀ k (hk : k < d.links.length) (hk2 : k < o.links.length),
      ((o.links.get ⟨k, hk2⟩).type =
        (classifyLink (topicNodeIds d.nodes) (d.links.get ⟨k, hk⟩)).type) ∧
      (∃ j, ∃ hj : j < o.nodes.length,
          (o.links.get ⟨k, hk2⟩).source = .ref j ∧
          (o.nodes.get ⟨j, hj⟩).id = (d.links.get ⟨k, hk⟩).source) ∧
      (∃ j, ∃ hj : j < o.nodes.length,
          (o.links.get ⟨k, hk2⟩).target = .ref j ∧
          (o.nodes.get ⟨j, hj⟩).id = (d.links.get ⟨k, hk⟩).target) := by
  obtain ⟨rl, hres, ho⟩ := runProgram_ok_inv minS maxS tickF ticks s0 d o h
  rw [resolveLinks] at hres
  have hspec := resolveLinksFrom_ok_spec _ (classifyLinks d.nodes d.links) 0 rl hres
  have hlen : rl.length = d.links.length := by
    rw [hspec.1, classifyLinks, List.length_map]
  subst ho
  refine ⟨hlen, ?_⟩
  intro k hk hk2
  have hkc : k < (classifyLinks d.nodes d.links).length := by
    rw [classifyLinks, List.length_map]
    exact hk
  have hgetcls : (classifyLinks d.nodes d.links).get ⟨k, hkc⟩ =
      classifyLink (topicNodeIds d.nodes) (d.links.get ⟨k, hk⟩) := by
    simp [classifyLinks]
  obtain ⟨hk3, js, jt, hjs, hjt, heq⟩ := hspec.2 k hkc
  rw [hgetcls] at hjs hjt heq
  refine ⟨?_, ?_, ?_⟩
  · rw [heq]
  · obtain ⟨hjslt, hjsid⟩ := lookupNode_some_spec _ _ js hjs
    obtain ⟨hjlt2, hjid2⟩ := projectNodes_get_id
      (Nat.iterate tickF ticks s0).posOf _ 0 js hjslt
    refine ⟨js, hjlt2, ?_, ?_⟩
    · rw [heq]
    · rw [hjid2, hjsid, classifyLink_source]
  · obtain ⟨hjtlt, hjtid⟩ := lookupNode_some_spec _ _ jt hjt
    obtain ⟨hjlt2, hjid2⟩ := projectNodes_get_id
      (Nat.iterate tickF ticks s0).posOf _ 0 jt hjtlt
    refine ⟨jt, hjlt2, ?_, ?_⟩
    · rw [heq]
    · rw [hjid2, hjtid, classifyLink_target]

deriving instance DecidableEq for Except

/-- A link endpoint id dangles: no node in the list carries it. -/
def endpointDangles (nodes : List GNode) (s : String) : Bool :=
  nodes.all (fun n => n.id != s)

/-- The input has a dangling link reference: some link's source or target
id resolves to no node. -/
def hasDanglingLink (d : GraphData) : Bool :=
  d.links.any (fun l =>
    endpointDangles d.nodes l.source || endpointDangles d.nodes l.target)

/-- A dangling endpoint id is not found among the sized node records. -/
theorem dangles_lookup_none (minS maxS : ℤ) (nodes : List GNode)
    (links' : List GLink) (s : String) (h : endpointDangles nodes s = true) :
    lookupNode (mkSimNodes minS maxS nodes links') s = none := by
  rw [lookupNode_eq_none_iff]
  intro sn hsn
  rw [mkSimNodes] at hsn
  obtain ⟨n, hn, rfl⟩ := List.mem_map.mp hsn
  rw [endpointDangles, List.all_eq_true] at h
  simpa using h n hn

/-- C7: on input errors the run fails with an error and no output: a
missing or unparsable input file (the `none` input) errors immediately,
and a dangling link reference makes `forceLink` initialization raise
`"node not found"` before anything is written — the run result is
`.error`, and the single output write happens only on `.ok`. -/
theorem input_errors_failfast (minS maxS : ℤ) (tickF : SimState → SimState)
    (ticks : ℕ) (s0 : SimState) (d : GraphData)
    (h : hasDanglingLink d = true) :
    (∃ e, runProgram minS maxS tickF ticks s0 none = .error e) ∧
    (∃ e, runProgram minS maxS tickF ticks s0 (some d) = .error e) := by
  refine ⟨⟨_, rfl⟩, ?_⟩
  rw [hasDanglingLink, List.any_eq_true] at h
  obtain ⟨l, hl, hcond⟩ := h
  rw [Bool.or_eq_true] at hcond
  have hmem : classifyLink (topicNodeIds d.nodes) l ∈ classifyLinks d.nodes d.links :=
    List.mem_map_of_mem _ hl
  have hdangle :
      lookupNode (mkSimNodes minS maxS d.nodes (classifyLinks d.nodes d.links))
          (classifyLink (topicNodeIds d.nodes) l).source = none ∨
      lookupNode (mkSimNodes minS maxS d.nodes (classifyLinks d.nodes d.links))
          (classifyLink (topicNodeIds d.nodes) l).target = none := by
    rcases hcond with hc | hc
    · left
      rw [classifyLink_source]
      exact dangles_lookup_none minS maxS d.nodes _ l.source hc
    · right
      rw [classifyLink_target]
      exact dangles_lookup_none minS maxS d.nodes _ l.target hc
  obtain ⟨e, he⟩ := resolveLinksFrom_error_of_dangling
    (mkSimNodes minS maxS d.nodes (classifyLinks d.nodes d.links))
    (classifyLinks d.nodes d.links) 0 ⟨_, hmem, hdangle⟩
  have hres : resolveLinks
      (mkSimNodes minS maxS d.nodes (classifyLinks d.nodes d.links))
      (classifyLinks d.nodes d.links) = .error e := by
    rw [resolveLinks]; exact he
  refine ⟨e, ?_⟩
  rw [runProgram, hres]

/-- C9: the run is a pure function of the input data, the tick function
(force parameters), the tick count and the initial state, so two runs on
equal inputs with the same configuration and the same initial placement
produce identical outputs — positions and classifications included. -/
theorem run_deterministic (minS maxS : ℤ) (tickF : SimState → SimState)
    (ticks : ℕ) (s0 : SimState) (d1 d2 : GraphData) (h : d1 = d2) :
    runProgram minS maxS tickF ticks s0 (some d1) =
      runProgram minS maxS tickF ticks s0 (some d2) := by
  rw [h]

/-- The witness initial simulation state: alpha 1, all nodes at the
origin with zero velocity. -/
def witSim : SimState := ⟨1, fun _ => (0, 0), fun _ => (0, 0)⟩

/-- The witness input graph: the three-node path with a topic node. -/
def witGraph : GraphData := ⟨sizeWitNodes, sizeWitLinks⟩

/-- The output the witness run computes (checked by `decide` in the
witnesses). -/
def witOutput : OutputData :=
  ⟨[⟨"A", "A", ["topic"], "", 0, 0, JsVal.num ⟨8, 1⟩⟩,
    ⟨"B", "B", [], "", 0, 0, JsVal.num ⟨16, 1⟩⟩,
    ⟨"C", "C", [], "", 0, 0, JsVal.num ⟨8, 1⟩⟩],
   [⟨.ref 0, .ref 1, some "topic_link", 0⟩, ⟨.ref 1, .ref 2, none, 1⟩]⟩

/-- Witness for C6 at a concrete run. -/
theorem output_fields_passthrough_witness :
    witOutput.nodes.map (fun n => (n.id, n.title, n.tags, n.content)) =
      witGraph.nodes.map (fun n => (n.id, n.title, n.tags, n.content)) :=
  output_fields_passthrough 8 16 id 1 witSim witGraph witOutput (by decide)

/-- Witness for C10 at a concrete run. -/
theorem output_preserves_order_witness :
    witOutput.nodes.map (fun n => n.id) = witGraph.nodes.map (fun n => n.id) ∧
    witOutput.links.length = witGraph.links.length ∧
    (witOutput.links.get ⟨0, by decide⟩).index = 0 :=
  ⟨(output_preserves_order 8 16 id 1 witSim witGraph witOutput (by decide)).1,
   (output_preserves_order 8 16 id 1 witSim witGraph witOutput (by decide)).2.1,
   (output_preserves_order 8 16 id 1 witSim witGraph witOutput (by decide)).2.2 0 (by decide)⟩

/-- Witness for the amended C2 at a concrete run. -/
theorem output_links_resolved_witness :
    witOutput.links.length = witGraph.links.length ∧
    (witOutput.links.get ⟨0, by decide⟩).type =
      (classifyLink (topicNodeIds witGraph.nodes) (witGraph.links.get ⟨0, by decide⟩)).type :=
  ⟨(output_links_resolved 8 16 id 1 witSim witGraph witOutput (by decide)).1,
   ((output_links_resolved 8 16 id 1 witSim witGraph witOutput (by decide)).2
     0 (by decide) (by decide)).1⟩

/-- A two-node input whose single link will be mutated by `forceLink`. -/
def mutGraph : GraphData :=
  ⟨[⟨"A", "A", ["topic"], ""⟩, ⟨"B", "B", [], ""⟩], [⟨"A", "B", none⟩]⟩

/-- The output of the run on `mutGraph` (both degrees equal 1, so the
sizes are NaN; the link's endpoints are node references). -/
def mutOutput : OutputData :=
  ⟨[⟨"A", "A", ["topic"], "", 0, 0, JsVal.nan⟩,
    ⟨"B", "B", [], "", 0, 0, JsVal.nan⟩],
   [⟨.ref 0, .ref 1, some "topic_link", 0⟩]⟩

/-- C2 counterexample: the output link is not the original record with
only `type` rewritten — its `source` field now holds a node reference,
not the input id string `"A"`. -/
theorem output_links_mutated_cex :
    runProgram 16 32 id 1 witSim (some mutGraph) = .ok mutOutput ∧
    (mutOutput.links.get ⟨0, by decide⟩).source = Endpoint.ref 0 ∧
    Endpoint.ref 0 ≠ Endpoint.str (mutGraph.links.get ⟨0, by decide⟩).source := by
  refine ⟨by decide, by decide, by decide⟩

/-- A one-node input with a dangling link target `"B"`. -/
def danglingGraph : GraphData := ⟨[⟨"A", "A", [], ""⟩], [⟨"A", "B", none⟩]⟩

/-- Witness for C7 at a concrete input. -/
theorem input_errors_failfast_witness :
    hasDanglingLink danglingGraph = true ∧
    ((∃ e, runProgram 16 32 id 1 witSim none = .error e) ∧
     (∃ e, runProgram 16 32 id 1 witSim (some danglingGraph) = .error e)) :=
  ⟨by decide, input_errors_failfast 16 32 id 1 witSim danglingGraph (by decide)⟩

/-- Witness for C9 at a concrete input. -/
theorem run_deterministic_witness :
    runProgram 8 16 id 1 witSim (some witGraph) =
      runProgram 8 16 id 1 witSim (some witGraph) :=
  run_deterministic 8 16 id 1 witSim witGraph witGraph rfl
